import Mathlib

/-!
Verification of the core runtime of a multi-tenant Telegram bot service
(`main.py`): the withdrawal ledger and approval workflow, the referral
credit applied by the user upsert, the daily scan quota and cooldown
guards, the button-DSL / HTML markup compiler, the session-state router
and the delayed-action scheduler.

The Python code is shallowly embedded: SQL rows become Lean structures,
the users table of one tenant becomes an association list keyed by the
platform user id, and each database transaction becomes a single pure
state-transition function (the `FOR UPDATE` row lock and the atomicity
of a transaction are modelled by the transition being one atomic Lean
function application).  Monetary values (SQL `NUMERIC`, handled as
Python floats in comparisons and arithmetic that never overflow or
round in the scenarios considered) are modelled as rationals; text is
modelled as `List Char`.
-/

namespace TgBot

/-- Text is modelled as a list of characters (Python `str`). -/
abbrev Str := List Char

/-- Status column of the `withdrawals` table (`TEXT`, values
`PENDING` / `APPROVED` / `REJECTED`, default `PENDING`). -/
inductive WdStatus
  | pending
  | approved
  | rejected
deriving DecidableEq, Repr

/-- One row of the `withdrawals` table (within one tenant; the `bot_id`
column is fixed and omitted). -/
structure Withdrawal where
  userId : Nat
  requestText : Str
  status : WdStatus
  approvedAmount : Option ℚ
  processedAt : Option Nat
  processedBy : Option Nat
deriving DecidableEq, Repr

/-- Outcome reported by the approve/reject handlers (the
`answer_callback` / `send_message` replies sent to the operator). -/
inductive WdReply
  | conflict (st : WdStatus)
  | invalidAmount
  | insufficient (bal amt : ℚ)
  | approvedOk (amt balAfter : ℚ)
  | rejectedOk
deriving DecidableEq, Repr

/-- State touched by one withdrawal-processing transaction: the request
row, the target user's balance, and the reply produced. -/
structure WdTxnResult where
  wd : Withdrawal
  balance : ℚ
  reply : WdReply
deriving DecidableEq, Repr

/-- The approval transaction of `telegram_webhook` (`main.py` lines
3753-3839 for the `wd:ap:` button, lines 3476-3548 for the `/approve`
reply command): inside one transaction, re-read the request row
(`FOR UPDATE` on the button path), refuse non-`PENDING` rows, refuse a
non-positive amount, lock the user row, refuse when the balance is
below the amount, and otherwise debit the balance and stamp the row
`APPROVED` with amount, processor and timestamp. -/
def approveWithdrawal (w : Withdrawal) (bal : ℚ) (amt : ℚ) (byUid : Nat) (now : Nat) :
    WdTxnResult :=
  if w.status ≠ .pending then ⟨w, bal, .conflict w.status⟩
  else if amt ≤ 0 then ⟨w, bal, .invalidAmount⟩
  else if bal < amt then ⟨w, bal, .insufficient bal amt⟩
  else
    ⟨{ w with
        status := .approved
        approvedAmount := some amt
        processedAt := some now
        processedBy := some byUid },
      bal - amt,
      .approvedOk amt (bal - amt)⟩

/-- The rejection transaction (`main.py` lines 3841-3851 for the
`wd:rj:` button, lines 3550-3560 for the `/reject` reply command):
refuse non-`PENDING` rows, otherwise stamp `REJECTED` with processor
and timestamp; the balance is never touched. -/
def rejectWithdrawal (w : Withdrawal) (bal : ℚ) (byUid : Nat) (now : Nat) : WdTxnResult :=
  if w.status ≠ .pending then ⟨w, bal, .conflict w.status⟩
  else
    ⟨{ w with
        status := .rejected
        processedAt := some now
        processedBy := some byUid },
      bal,
      .rejectedOk⟩

/-- One row of the `users` table (within one tenant; the `bot_id`
column is fixed and omitted).  Column defaults from the DDL:
`balance NUMERIC NOT NULL DEFAULT 0`, `shared_count BIGINT NOT NULL
DEFAULT 0`, `credited_upline BOOLEAN NOT NULL DEFAULT FALSE`,
`is_verified` / `is_premium` default `FALSE`. -/
structure User where
  username : Option Str
  firstName : Str
  memberId : Option Str
  phone : Option Str
  balance : ℚ
  sharedCount : Nat
  uplineUserId : Option Nat
  creditedUpline : Bool
  isVerified : Bool
  isPremium : Bool
deriving DecidableEq, Repr

/-- The users table of one tenant, keyed by the platform user id
(primary key `(bot_id, user_id)` with `bot_id` fixed). -/
abbrev UserDb := List (Nat × User)

/-- Primary-key lookup in the users table (an SQL
`SELECT * FROM users WHERE user_id=:u`). -/
def dbLookup (k : Nat) : UserDb → Option User
  | [] => none
  | (k2, v) :: rest => if k2 = k then some v else dbLookup k rest

/-- Update the row with the given key in place, leaving every other
row unchanged (an SQL `UPDATE ... WHERE user_id=:u`). -/
def dbUpdate (k : Nat) (f : User → User) : UserDb → UserDb
  | [] => []
  | (k2, v) :: rest =>
      (k2, if k2 = k then f v else v) :: dbUpdate k f rest

/-- Global fallback referral credit (`AFFILIATE_AMOUNT` env, default
`1.00`). -/
def AFFILIATE_AMOUNT : ℚ := 1

/-- Result of `upsert_user`: the table after the transaction, the row
re-read at the end, and the `is_new` flag. -/
structure UpsertResult where
  db : UserDb
  row : Option User
  isNew : Bool
deriving DecidableEq, Repr

/-- The `upsert_user` transaction (`main.py` lines 1257-1306): null the
upline when it equals the new user's own id; `INSERT ... ON CONFLICT
DO NOTHING` the user row; when the row already existed, refresh
`username` / `first_name` and backfill `member_id` when it was null or
empty; when the row is new and the upline reference is truthy (a
Python `if upline_id:`, so a `0` id counts as absent), credit the
upline row with the configured affiliate amount (the passed amount, or
the global default when the caller passes none) and bump its share
counter, and mark the new user `credited_upline` exactly when that
update hit a row; finally re-read the row.  All of this runs inside
one `engine.begin()` transaction. -/
def upsertUser (db : UserDb) (uid : Nat) (username : Option Str) (firstName : Str)
    (uplineId : Option Nat) (newMid : Str) (affiliateAmount : Option ℚ) : UpsertResult :=
  let uplineId := if uplineId = some uid then none else uplineId
  let isNew := (dbLookup uid db).isNone
  let db1 :=
    if isNew then
      (uid, ⟨username, firstName, some newMid, none, 0, 0, uplineId, false, false, false⟩) :: db
    else
      dbUpdate uid (fun u =>
        { u with
            username := username
            firstName := firstName
            memberId := if u.memberId = none ∨ u.memberId = some [] then some newMid
                        else u.memberId }) db
  let db2 :=
    match uplineId with
    | some up =>
        if isNew ∧ up ≠ 0 then
          let amt := affiliateAmount.getD AFFILIATE_AMOUNT
          let hit := (dbLookup up db1).isSome
          let db1a := dbUpdate up (fun u =>
            { u with balance := u.balance + amt, sharedCount := u.sharedCount + 1 }) db1
          if hit then dbUpdate uid (fun u => { u with creditedUpline := true }) db1a
          else db1a
        else db1
    | none => db1
  ⟨db2, dbLookup uid db2, isNew⟩

/-- Effective daily scan limit for a user (`get_scan_limit_for_user`,
`main.py` lines 925-942): the per-user row of `scan_limit_overrides`
(column `limit_per_day INT NOT NULL`) takes priority; otherwise the
tenant's `scan_limit_per_day` column; `none` when both are absent. -/
def getScanLimitForUser (override : Option Int) (botLimit : Option Int) : Option Int :=
  match override with
  | some v => some v
  | none => botLimit

/-- Today's `scan_daily_usage` count for one (tenant, user, day):
`none` when no row exists yet. -/
abbrev ScanCount := Option Nat

/-- Result of `scan_daily_touch_or_block` together with the stored
count after the statement ran. -/
structure ScanTouchResult where
  allowed : Bool
  usedAfter : Nat
  limit : Option Int
  count : ScanCount
deriving DecidableEq, Repr

/-- The quota consume operation `scan_daily_touch_or_block` (`main.py`
lines 945-982): a missing or non-positive effective limit is unlimited
(admit, report zero usage, touch nothing); otherwise one conditional
atomic statement `INSERT ... VALUES (..., 1) ON CONFLICT DO UPDATE SET
count = count + 1 WHERE count < :lim RETURNING count` admits exactly
when the row is absent (stored count becomes 1) or its count is below
the limit (count is incremented); when the statement returns no row
the current count is re-read and reported with `allowed = False`
(a zero or missing re-read count is reported as the limit itself,
following the Python `or lim_i` fallback).  Concurrency safety rests
on the statement being atomic, which the embedding models by this
whole operation being one function application. -/
def scanDailyTouchOrBlock (override botLimit : Option Int) (st : ScanCount) :
    ScanTouchResult :=
  match getScanLimitForUser override botLimit with
  | none => ⟨true, 0, none, st⟩
  | some lim =>
      if lim ≤ 0 then ⟨true, 0, some lim, st⟩
      else
        match st with
        | none => ⟨true, 1, some lim, some 1⟩
        | some c =>
            if (c : Int) < lim then ⟨true, c + 1, some lim, some (c + 1)⟩
            else ⟨false, if c = 0 then lim.toNat else c, some lim, some c⟩

/-- The cooldown guard `scanner_check_and_touch_cooldown` (`main.py`
lines 858-894), with time in (rational) seconds since an arbitrary
epoch.  When a last-used timestamp exists and the elapsed time is
below the cooldown window, the stored timestamp is left alone and
`int(cooldown_seconds - elapsed + 0.999)` is returned (the Python
`int` truncation on this positive value is the integer floor);
otherwise `now` is upserted as the new timestamp and 0 is returned. -/
def scannerCheckAndTouchCooldown (lastAt : Option ℚ) (now : ℚ) (cooldownSeconds : ℚ) :
    Int × Option ℚ :=
  match lastAt with
  | some last =>
      if now - last < cooldownSeconds then
        (⌊cooldownSeconds - (now - last) + 999/1000⌋, some last)
      else (0, some now)
  | none => (0, some now)

/-- Value of a run of decimal digit characters. -/
def digitsToNat (ds : Str) : Nat :=
  ds.foldl (fun n c => 10 * n + (c.toNat - '0'.toNat)) 0

/-- First match of the Python regex `(\d+(?:\.\d+)?)` in a string,
converted by `float(...)`: the first maximal digit run, optionally
followed by a dot and a further digit run, read as a (rational)
number.  Used both by `process_withdraw` (`main.py` line 2624) and by
the `wd:ap:` button handler (line 3775). -/
def firstNumber : Str → Option ℚ
  | [] => none
  | c :: rest =>
      if c.isDigit then
        let intPart := (c :: rest).takeWhile Char.isDigit
        let after := (c :: rest).dropWhile Char.isDigit
        match after with
        | '.' :: d :: rest2 =>
            if d.isDigit then
              let fracPart := (d :: rest2).takeWhile Char.isDigit
              some ((digitsToNat intPart : ℚ) +
                (digitsToNat fracPart : ℚ) / 10 ^ fracPart.length)
            else some (digitsToNat intPart)
        | _ => some (digitsToNat intPart)
      else firstNumber rest

/-- Message sent back to the user by `process_withdraw`. -/
inductive WithdrawMsg
  | insufficient (minWd bal : ℚ)
  | submitted
deriving DecidableEq, Repr

/-- The withdrawal-relevant state touched by `process_withdraw`: the
requesting user's balance and the `withdrawals` table rows. -/
structure WithdrawState where
  balance : ℚ
  withdrawals : List Withdrawal
deriving DecidableEq, Repr

/-- Result of one `process_withdraw` call. -/
structure ProcessWithdrawResult where
  state : WithdrawState
  message : WithdrawMsg
deriving DecidableEq, Repr

/-- The request-submission handler `process_withdraw` (`main.py` lines
2605-2650): clear the session state, read the balance, parse the first
number of the request text, and answer the insufficient-balance
message — creating no row — when the balance is below the tenant's
minimum-withdrawal amount or a parsed amount exceeds the balance;
otherwise insert a withdrawal row (status defaults to `PENDING`)
carrying the request text and confirm.  The balance column is never
written here. -/
def process_withdraw (uid : Nat) (minWd : ℚ) (textMsg : Str) (st : WithdrawState) :
    ProcessWithdrawResult :=
  let bal0 := st.balance
  if bal0 < minWd then ⟨st, .insufficient minWd bal0⟩
  else
    match firstNumber textMsg with
    | some a =>
        if bal0 < a then ⟨st, .insufficient minWd bal0⟩
        else ⟨⟨bal0, st.withdrawals ++ [⟨uid, textMsg, .pending, none, none, none⟩]⟩,
          .submitted⟩
    | none => ⟨⟨bal0, st.withdrawals ++ [⟨uid, textMsg, .pending, none, none, none⟩]⟩,
        .submitted⟩

/-- Session-state labels stored in `user_states.state`; the only two
values ever written by the code (`main.py` lines 2263 and 2593). -/
inductive SessionState
  | awaitWithdraw
  | awaitAddbotToken
deriving DecidableEq, Repr

/-- Whitespace class of the Python regex `\s` and of `str.strip()`
(ASCII range). -/
def isPySpace (c : Char) : Bool :=
  c = ' ' || c = '\t' || c = '\n' || c = '\r' || c = '\x0b' || c = '\x0c'

/-- Python `str.strip()` (whitespace at both ends removed). -/
def pyStrip (s : Str) : Str :=
  ((s.dropWhile isPySpace).reverse.dropWhile isPySpace).reverse

/-- The token-format regex `^\d+:[A-Za-z0-9_-]{20,}$` of
`handle_addbot_receive_token` (`main.py` line 2280). -/
def tokenFormatOk (tok : Str) : Bool :=
  let ds := tok.takeWhile Char.isDigit
  let rest := tok.dropWhile Char.isDigit
  decide (ds ≠ []) &&
    match rest with
    | ':' :: tail =>
        decide (tail.length ≥ 20) &&
          tail.all (fun c => c.isAlphanum || c = '_' || c = '-')
    | _ => false

/-- Whether `handle_addbot_receive_token` (`main.py` lines 2275-2340)
deletes the session state: it clears on the duplicate-token path and
after a successful insert, but returns with the state still set when
the token format is invalid, when `getMe` validation fails, or when
the secret-token insert keeps colliding.  The duplicate check, the
`getMe` call and the insert outcome are external effects passed in as
oracles. -/
def addbotClearsState (tok : Str) (duplicate valid insertOk : Bool) : Bool :=
  if ¬ tokenFormatOk (pyStrip tok) then false
  else if duplicate then true
  else if ¬ valid then false
  else if ¬ insertOk then false
  else true

/-- Where the message branch of `telegram_webhook` hands the event. -/
inductive RouteResult
  | startHandler
  | contactHandler
  | stateWithdraw
  | stateAddbot
  | deniedAdminCleared
  | commandDispatch
deriving DecidableEq, Repr

/-- An inbound text-message event (its text and whether a contact is
attached). -/
structure MsgEvent where
  text : Str
  hasContact : Bool
deriving DecidableEq, Repr

/-- Dispatch decision plus the session state left behind. -/
structure RouterOutcome where
  dispatched : RouteResult
  stateAfter : Option SessionState
deriving DecidableEq, Repr

/-- The message branch of `telegram_webhook` (`main.py` lines
2856-2899) combined with the state effects of the dispatched handlers:
`/start` texts and contact shares are handled before the state check
(leaving the state as it was); then a non-empty text with state
`await_withdraw` goes to `process_withdraw`, which clears the state on
entry (line 2608); a non-empty text with state `await_addbot_token`
clears the state and stops for non-admins, and otherwise goes to
`handle_addbot_receive_token`, which clears the state only on the
paths captured by `addbotClearsState`; with no surviving state the
event falls through to generic command parsing. -/
def routeTextMessage (state : Option SessionState) (isAdmin duplicate valid insertOk : Bool)
    (ev : MsgEvent) : RouterOutcome :=
  if ("/start".data).isPrefixOf ev.text then ⟨.startHandler, state⟩
  else if ev.hasContact then ⟨.contactHandler, state⟩
  else
    match state with
    | some .awaitWithdraw =>
        if ev.text ≠ [] then ⟨.stateWithdraw, none⟩
        else ⟨.commandDispatch, state⟩
    | some .awaitAddbotToken =>
        if ev.text ≠ [] then
          if isAdmin then
            ⟨.stateAddbot,
              if addbotClearsState ev.text duplicate valid insertOk then none
              else some .awaitAddbotToken⟩
          else ⟨.deniedAdminCleared, none⟩
        else ⟨.commandDispatch, state⟩
    | none => ⟨.commandDispatch, none⟩

/-- Python `str.split("\n")`. -/
def splitLines : Str → List Str
  | [] => [[]]
  | c :: cs =>
      if c = '\n' then [] :: splitLines cs
      else
        match splitLines cs with
        | l :: ls => (c :: l) :: ls
        | [] => [[c]]

/-- Python `"\n".join(...)`. -/
def joinLines (ls : List Str) : Str :=
  List.intercalate ['\n'] ls

/-- Python `str.split(sep, 1)` on a single character, when the
separator occurs. -/
def splitOnce (sep : Char) : Str → Option (Str × Str)
  | [] => none
  | c :: cs =>
      if c = sep then some ([], cs)
      else
        match splitOnce sep cs with
        | some (a, b) => some (c :: a, b)
        | none => none

/-- Python `str.split(sep, 1)` on a multi-character separator, when
the separator occurs. -/
def splitOnSubstr (sep : Str) : Str → Option (Str × Str)
  | [] => none
  | c :: cs =>
      if sep.isPrefixOf (c :: cs) then some ([], (c :: cs).drop sep.length)
      else
        match splitOnSubstr sep cs with
        | some (a, b) => some (c :: a, b)
        | none => none

/-- Word characters of the Python regex `\b` boundary (`\w`). -/
def isWordChar (c : Char) : Bool := c.isAlphanum || c = '_'

/-- Case-insensitive literal match returning the remainder. -/
def matchLitCI : Str → Str → Option Str
  | [], s => some s
  | _ :: _, [] => none
  | p :: ps, c :: cs => if c.toLower = p then matchLitCI ps cs else none

/-- Match `delay\s*=\s*(\d+)\b` (case-insensitive, `main.py` line 637)
at the start of a string: the parsed value and the remainder after the
digits. -/
def matchDelayCore (s : Str) : Option (Nat × Str) :=
  match matchLitCI ("delay".data) s with
  | none => none
  | some r1 =>
      match r1.dropWhile isPySpace with
      | [] => none
      | c :: r3 =>
          if c = '=' then
            let r4 := r3.dropWhile isPySpace
            let ds := r4.takeWhile Char.isDigit
            let r5 := r4.dropWhile Char.isDigit
            if ds = [] then none
            else if (match r5 with | [] => true | c2 :: _ => ! isWordChar c2) then
              some (digitsToNat ds, r5)
            else none
          else none

/-- Leftmost value of `re.search(r"\bdelay\s*=\s*(\d+)\b", s, re.I)`;
the Boolean argument records whether the previous character was a word
character (for the `\b` boundary). -/
def findDelayAux : Bool → Str → Option Nat
  | _, [] => none
  | prevWord, c :: cs =>
      if ¬ prevWord then
        match matchDelayCore (c :: cs) with
        | some (v, _) => some v
        | none => findDelayAux (isWordChar c) cs
      else findDelayAux (isWordChar c) cs

def findDelay (s : Str) : Option Nat := findDelayAux false s

/-- Python `re.sub(r"\s*\bdelay\s*=\s*\d+\b", "", s, flags=re.I)`
(`main.py` line 643): scan left to right, removing every occurrence of
optional whitespace followed by a word-boundary `delay=<digits>` with
a trailing boundary; the Boolean records whether the character before
the current position in the original string was a word character. -/
def removeDelayFuel : Nat → Bool → Str → Str
  | 0, _, s => s
  | _ + 1, _, [] => []
  | fuel + 1, prevWord, c :: cs =>
      if ((c :: cs).takeWhile isPySpace ≠ []) ∨ prevWord = false then
        match matchDelayCore ((c :: cs).dropWhile isPySpace) with
        | some vr => removeDelayFuel fuel true vr.2
        | none => c :: removeDelayFuel fuel (isWordChar c) cs
      else c :: removeDelayFuel fuel (isWordChar c) cs

def removeDelay (s : Str) : Str := removeDelayFuel s.length false s

/-- Button kinds of the line DSL. -/
inductive BtnKind
  | link
  | callback
  | share
  | withdrawal
deriving DecidableEq, Repr

/-- The compiled inline-keyboard button dicts (`url` /
`callback_data` / `switch_inline_query_current_chat` payloads). -/
inductive Button
  | url (label : Str) (u : Str)
  | callbackData (label : Str) (data : Str)
  | switchInline (label : Str) (query : Str)
deriving DecidableEq, Repr

/-- Match the kind alternation `(link|callback|share|withdrawal)`,
returning the remainder of the line. -/
def matchKind (s : Str) : Option (BtnKind × Str) :=
  if ("link".data).isPrefixOf s then some (.link, s.drop 4)
  else if ("callback".data).isPrefixOf s then some (.callback, s.drop 8)
  else if ("share".data).isPrefixOf s then some (.share, s.drop 5)
  else if ("withdrawal".data).isPrefixOf s then some (.withdrawal, s.drop 10)
  else none

/-- Match `!(\d+)(link|callback|share|withdrawal)\s+(.+)$` against the
stripped line (`main.py` line 611), returning the row number, the kind
and the stripped content group. -/
def parseDslLine (line : Str) : Option (Nat × BtnKind × Str) :=
  match pyStrip line with
  | '!' :: rest =>
      let ds := rest.takeWhile Char.isDigit
      if ds = [] then none
      else
        match matchKind (rest.dropWhile Char.isDigit) with
        | some (k, rem) =>
            if rem.takeWhile isPySpace = [] then none
            else
              let content := rem.dropWhile isPySpace
              if content = [] then none
              else some (digitsToNat ds, k, pyStrip content)
        | none => none
  | _ => none

/-- Build the button for one matched DSL line (`main.py` lines
616-656): `link` splits label|url and auto-prefixes `https://` when
the url does not start with `http`; `callback` splits label|key,
parses out an embedded `delay=<n>` override and emits
`cb:<key>[;d=<n>]` (empty keys fall back to `error`); `share` emits
the share-inline affordance; `withdrawal` emits the fixed
`req_withdraw` callback. -/
def buildButton (k : BtnKind) (content : Str) (shareQuery : Str) : Button :=
  match k with
  | .link =>
      let nu := match splitOnce '|' content with
        | some (n, u) => (n, u)
        | none => ("Link".data, content)
      let url0 := pyStrip nu.2
      let url1 := if ("http".data).isPrefixOf url0 then url0 else "https://".data ++ url0
      .url (pyStrip nu.1) url1
  | .callback =>
      let nk := match splitOnce '|' content with
        | some (n, kr) => (n, kr)
        | none => (content, "error".data)
      let keyRaw1 := pyStrip nk.2
      let kd := match findDelay keyRaw1 with
        | some d => (pyStrip (removeDelay keyRaw1), some d)
        | none => (keyRaw1, (none : Option Nat))
      let keyClean := if pyStrip kd.1 = [] then "error".data else pyStrip kd.1
      let cb0 := "cb:".data ++ keyClean
      let cb1 := match kd.2 with
        | some d => cb0 ++ ";d=".data ++ Nat.toDigits 10 d
        | none => cb0
      .callbackData (pyStrip nk.1) cb1
  | .share => .switchInline content shareQuery
  | .withdrawal => .callbackData content ("req_withdraw".data)

/-- Keyboard rows under construction, in dict insertion order. -/
abbrev RowMap := List (Nat × List Button)

/-- `rows.setdefault(row, []); rows[row].append(btn)` preserving dict
insertion order. -/
def rowsInsert (r : Nat) (b : Button) : RowMap → RowMap
  | [] => [(r, [b])]
  | (r2, bs) :: rest =>
      if r2 = r then (r2, bs ++ [b]) :: rest
      else (r2, bs) :: rowsInsert r b rest

def rowLookup (r : Nat) : RowMap → Option (List Button)
  | [] => none
  | (r2, bs) :: rest => if r2 = r then some bs else rowLookup r rest

def insertSortedNat (x : Nat) : List Nat → List Nat
  | [] => [x]
  | y :: ys => if x ≤ y then x :: y :: ys else y :: insertSortedNat x ys

/-- Python `sorted(...)` on the (distinct) row keys. -/
def sortNat : List Nat → List Nat
  | [] => []
  | x :: xs => insertSortedNat x (sortNat xs)

/-- The `for line in lines` loop of `parse_buttons` (`main.py` lines
609-660): a raw line starting with `!` that matches the DSL regex
becomes a button in its row; every other line stays visible, in
order. -/
def collectButtonsAux (shareQuery : Str) (acc : List Str × RowMap) :
    List Str → List Str × RowMap
  | [] => acc
  | line :: rest =>
      let acc2 :=
        if line.head? = some '!' then
          match parseDslLine line with
          | some rkc => (acc.1, rowsInsert rkc.1 (buildButton rkc.2.1 rkc.2.2 shareQuery) acc.2)
          | none => (acc.1 ++ [line], acc.2)
        else (acc.1 ++ [line], acc.2)
      collectButtonsAux shareQuery acc2 rest

def collectButtons (shareQuery : Str) (lines : List Str) : List Str × RowMap :=
  collectButtonsAux shareQuery ([], []) lines

/-- Output of `parse_buttons`: visible text and the optional inline
keyboard. -/
structure ParsedButtons where
  visibleText : Str
  keyboard : Option (List (List Button))
deriving DecidableEq, Repr

/-- `parse_buttons` (`main.py` lines 601-663): DSL lines are compiled
into buttons grouped by row number and stripped from the visible text;
the keyboard lists the rows by ascending row number (`sorted(rows)`);
the remaining lines are joined and stripped; an empty keyboard becomes
`None`. -/
def parse_buttons (text : Str) (shareInlineQuery : Option Str) : ParsedButtons :=
  if text = [] then ⟨[], none⟩
  else
    let q := match shareInlineQuery with
      | some s => if s = [] then "Jom join!".data else s
      | none => "Jom join!".data
    let vr := collectButtons q (splitLines text)
    let kb := (sortNat (vr.2.map Prod.fst)).filterMap (fun r => rowLookup r vr.2)
    ⟨pyStrip (joinLines vr.1), if kb = [] then none else some kb⟩

/-- The Telegram-HTML tag allowlist `_ALLOWED_TAGS` (`main.py` lines
295-298). -/
def ALLOWED_TAGS : List Str :=
  ["b", "strong", "i", "em", "u", "ins", "s", "strike", "del",
   "code", "pre", "a", "tg-spoiler"].map String.data

/-- One character under Python `html.escape(..., quote=True)`. -/
def htmlEscapeChar (c : Char) : Str :=
  if c = '&' then "&amp;".data
  else if c = '<' then "&lt;".data
  else if c = '>' then "&gt;".data
  else if c = '"' then "&quot;".data
  else if c = '\'' then "&#x27;".data
  else [c]

/-- Python `html.escape` with `quote=True`. -/
def htmlEscape (s : Str) : Str := (s.map htmlEscapeChar).flatten

def isTagNameChar (c : Char) : Bool := c.isAlphanum || c = '-'

/-- The tag-name regex `</?\s*([a-zA-Z0-9\-]+)` of the sanitizer's
replacement callback (`main.py` line 320), name lowercased. -/
def extractTagName (tag : Str) : Option Str :=
  match tag with
  | '<' :: rest =>
      let rest2 := match rest with | '/' :: r => r | _ => rest
      let name := (rest2.dropWhile isPySpace).takeWhile isTagNameChar
      if name = [] then none else some (name.map Char.toLower)
  | _ => none

/-- The replacement callback `repl` of `sanitize_telegram_html`
(`main.py` lines 318-326): a tag whose name is in the allowlist passes
through unchanged, anything else (including nameless tags) is
HTML-escaped. -/
def replTag (tag : Str) : Str :=
  match extractTagName tag with
  | some n => if n ∈ ALLOWED_TAGS then tag else htmlEscape tag
  | none => htmlEscape tag

/-- The scan `re.sub(r"</?[^>]+>", repl, s)` (`main.py` line 328),
with step-count fuel: each `<...>` chunk with a non-empty interior
free of `>` is passed through `replTag`; every other character is
copied. -/
def escapeTagsFuel : Nat → Str → Str
  | 0, s => s
  | _ + 1, [] => []
  | fuel + 1, c :: rest =>
      if c = '<' then
        let inner := rest.takeWhile (fun c2 => c2 != '>')
        if inner.length < rest.length ∧ inner ≠ [] then
          replTag ('<' :: inner ++ ['>']) ++ escapeTagsFuel fuel (rest.drop (inner.length + 1))
        else c :: escapeTagsFuel fuel rest
      else c :: escapeTagsFuel fuel rest

def escapeUnknownTags (s : Str) : Str := escapeTagsFuel s.length s

/-- `TG_MAX_TEXT` (`main.py` line 81, default). -/
def TG_MAX_TEXT : Nat := 3500

/-- `_trim` (`main.py` lines 301-306). -/
def trimStr (s : Str) (limit : Nat) : Str :=
  if s = [] then []
  else if s.length ≤ limit then s
  else s.take limit ++ ['…']

/-- `sanitize_telegram_html` (`main.py` lines 309-330). -/
def sanitize_telegram_html (s : Str) : Str :=
  if s = [] then [] else trimStr (escapeUnknownTags s) TG_MAX_TEXT

/-- One row of the `actions` table (within one tenant):
`type` / `text` / `media_file_id` / `delay_seconds INT NOT NULL
DEFAULT 0`. -/
structure ActionRow where
  type : Str
  text : Str
  mediaFileId : Option Str
  delaySeconds : Int
deriving DecidableEq, Repr

/-- The actions table of one tenant, keyed by the action key. -/
abbrev ActionStore := List (Str × ActionRow)

/-- `actions_get` (`main.py` lines 2687-2692): primary-key lookup. -/
def actionsGet (key : Str) : ActionStore → Option ActionRow
  | [] => none
  | (k, v) :: rest => if k = key then some v else actionsGet key rest

/-- Parse the payload after `cb:` of a pressed button (`main.py` lines
3895-3909): split off a `;d=<digits>` delay override (digits taken
from the front of the stripped tail) and normalize a `scan_<provider>`
key to `<provider>`; returns the resolved key and the override. -/
def parseCbPayload (raw : Str) : Str × Option Int :=
  let kd : Str × Option Int :=
    match splitOnSubstr (";d=".data) raw with
    | some kp =>
        let ds := (pyStrip kp.2).takeWhile Char.isDigit
        (pyStrip kp.1, if ds = [] then none else some (digitsToNat ds : Int))
    | none => (raw, none)
  let key := pyStrip kd.1
  let key2 := if ("scan_".data).isPrefixOf key then key.drop 5 else key
  (key2, kd.2)

/-- Context a deferred action task carries (`main.py` line 4091): the
tenant, chat, user, message reference and the action key. -/
structure TaskPayload where
  botId : Nat
  chatId : Int
  userId : Nat
  messageId : Option Nat
  key : Str
deriving DecidableEq, Repr

/-- Observable effects of the `cb:` dispatch (`main.py` lines
4041-4118). -/
inductive CbEffect
  | sendNew (rendered : Str)
  | editFinal (messageId : Nat) (rendered : Str)
  | editLoading (messageId : Nat)
  | enqueueTask (p : TaskPayload) (delaySeconds : Int)
  | startTimer (messageId : Nat) (key : Str) (delaySeconds : Int)
deriving DecidableEq, Repr

/-- The delayed-action dispatch of the `cb:` branch (`main.py` lines
4041-4118), given the Action row the key resolved to and the rendering
function (placeholder substitution, scan placeholders and button
compilation, abstracted as `render` since it reads the fresh user row):
the effective delay is the `;d=` override or the row's
`delay_seconds`; without a message reference a fresh message is sent;
with delay ≤ 0 the existing message is edited to the rendered result
synchronously; with delay > 0 the message is first edited to the
loading representation, then a task carrying (tenant, chat, user,
message id, action key) is enqueued to fire after the delay when Cloud
Tasks is configured, and otherwise an in-process timer with the same
data is started. -/
def handleCbAction (botId : Nat) (chatId : Int) (uid : Nat) (messageId : Option Nat)
    (key : Str) (act : ActionRow) (delayOverride : Option Int)
    (render : ActionRow → Str) (useTasks : Bool) : List CbEffect :=
  let delay := delayOverride.getD act.delaySeconds
  match messageId with
  | none => [.sendNew (render act)]
  | some mid =>
      if delay ≤ 0 then [.editFinal mid (render act)]
      else
        [.editLoading mid] ++
          (if useTasks then [.enqueueTask ⟨botId, chatId, uid, some mid, key⟩ delay]
           else [.startTimer mid key delay])

/-- Outcome of the deferred task handler. -/
inductive TaskResult
  | noAction
  | accessDenied
  | edited (messageId : Nat) (rendered : Str)
  | sentNew (rendered : Str)
deriving DecidableEq, Repr

/-- The deferred handler `task_action` (`main.py` lines 2785-2841),
run when the queued task fires: it re-resolves the Action by key in
the store as it is at fire time, re-checks the access gates
(`ensure_access`, an external effect passed as an oracle), re-renders
against the fresh user row (`render`), and edits the same message
referenced by the payload (falling back to a fresh message when the
payload carries no message id). -/
def task_action (store : ActionStore) (access : Bool) (render : ActionRow → Str)
    (p : TaskPayload) : TaskResult :=
  match actionsGet p.key store with
  | none => .noAction
  | some act =>
      if ¬ access then .accessDenied
      else
        match p.messageId with
        | some mid => .edited mid (render act)
        | none => .sentNew (render act)

/-- C1: approving a PENDING withdrawal with an amount that is positive
and does not exceed the user's balance debits the balance by exactly
that amount and stamps the request APPROVED with the amount, the
processor's identity and a timestamp, in one atomic transaction; if the
amount is non-positive or exceeds the balance, neither the balance nor
the request is mutated and the request stays PENDING. -/
theorem approve_pending_correct (w : Withdrawal) (bal amt : ℚ) (byUid now : Nat)
    (hp : w.status = .pending) :
    (0 < amt → amt ≤ bal →
      approveWithdrawal w bal amt byUid now =
        ⟨{ w with
            status := .approved
            approvedAmount := some amt
            processedAt := some now
            processedBy := some byUid },
          bal - amt,
          .approvedOk amt (bal - amt)⟩) ∧
    (amt ≤ 0 ∨ bal < amt →
      (approveWithdrawal w bal amt byUid now).wd = w ∧
      (approveWithdrawal w bal amt byUid now).balance = bal ∧
      (approveWithdrawal w bal amt byUid now).wd.status = .pending) := by
  constructor
  · intro h0 hle
    simp only [approveWithdrawal, hp]
    rw [if_neg (by simp), if_neg (by exact not_le.mpr h0), if_neg (by exact not_lt.mpr hle)]
  · intro hbad
    have hcases : amt ≤ 0 ∨ (¬ amt ≤ 0 ∧ bal < amt) := by
      rcases hbad with h | h
      · exact Or.inl h
      · by_cases h0 : amt ≤ 0
        · exact Or.inl h0
        · exact Or.inr ⟨h0, h⟩
    simp only [approveWithdrawal, hp]
    rcases hcases with h | ⟨h0, hlt⟩
    · rw [if_neg (by simp), if_pos h]
      exact ⟨rfl, rfl, hp⟩
    · rw [if_neg (by simp), if_neg h0, if_pos hlt]
      exact ⟨rfl, rfl, hp⟩

/-- Witness for C1: the spec scenario — a PENDING request for a user
with balance 100.00 approved for amount 100.00 leaves balance 0.00 and
status APPROVED; approving 150.00 on balance 100.00 mutates nothing. -/
theorem approve_pending_correct_witness :
    approveWithdrawal ⟨7, [], .pending, none, none, none⟩ 100 100 1 5 =
      ⟨⟨7, [], .approved, some 100, some 5, some 1⟩, 0, .approvedOk 100 0⟩ ∧
    (approveWithdrawal ⟨7, [], .pending, none, none, none⟩ 100 150 1 5).wd =
      ⟨7, [], .pending, none, none, none⟩ := by
  constructor
  · have h := (approve_pending_correct ⟨7, [], .pending, none, none, none⟩ 100 100 1 5 rfl).1
      (by norm_num) (by norm_num)
    rw [h]; norm_num
  · exact ((approve_pending_correct ⟨7, [], .pending, none, none, none⟩ 100 150 1 5 rfl).2
      (Or.inr (by norm_num))).1

/-- C2: any approve or reject attempt on a withdrawal whose status is
not PENDING answers with the benign conflict reply and mutates neither
the request row nor the user's balance. -/
theorem terminal_state_immutable (w : Withdrawal) (bal amt : ℚ) (byUid now : Nat)
    (ht : w.status ≠ .pending) :
    approveWithdrawal w bal amt byUid now = ⟨w, bal, .conflict w.status⟩ ∧
    rejectWithdrawal w bal byUid now = ⟨w, bal, .conflict w.status⟩ := by
  constructor
  · simp only [approveWithdrawal]; rw [if_pos (by simpa using ht)]
  · simp only [rejectWithdrawal]; rw [if_pos (by simpa using ht)]

/-- Witness for C2: a second approval attempt on an APPROVED request is
answered as a conflict with no mutation, and so is a reject attempt. -/
theorem terminal_state_immutable_witness :
    approveWithdrawal ⟨7, [], .approved, some 100, some 5, some 1⟩ 0 100 2 9 =
      ⟨⟨7, [], .approved, some 100, some 5, some 1⟩, 0, .conflict .approved⟩ ∧
    rejectWithdrawal ⟨7, [], .approved, some 100, some 5, some 1⟩ 0 2 9 =
      ⟨⟨7, [], .approved, some 100, some 5, some 1⟩, 0, .conflict .approved⟩ :=
  terminal_state_immutable ⟨7, [], .approved, some 100, some 5, some 1⟩ 0 100 2 9 (by simp)

theorem dbLookup_dbUpdate_self (k : Nat) (f : User → User) (db : UserDb) :
    dbLookup k (dbUpdate k f db) = (dbLookup k db).map f := by
  induction db with
  | nil => rfl
  | cons hd tl ih =>
      obtain ⟨k2, v⟩ := hd
      by_cases hk : k2 = k
      · simp [dbUpdate, dbLookup, hk]
      · simp [dbUpdate, dbLookup, hk, ih]

theorem dbLookup_dbUpdate_other (k k2 : Nat) (hne : k2 ≠ k) (f : User → User) (db : UserDb) :
    dbLookup k2 (dbUpdate k f db) = dbLookup k2 db := by
  induction db with
  | nil => rfl
  | cons hd tl ih =>
      obtain ⟨k3, v⟩ := hd
      by_cases h2 : k3 = k2
      · simp [dbUpdate, dbLookup, h2, hne]
      · simp [dbUpdate, dbLookup, h2, ih]

/-- C3: on the first-ever creation of a user row carrying an upline
reference distinct from the new user's own id whose row already exists
in the tenant, the same transaction that inserts the row credits the
upline's balance by the configured affiliate amount, bumps its share
counter and marks the new user credited; when the user row already
exists the insert is a no-op and no credit is applied, so the credit
happens at most once per new user.  (Platform user ids are positive;
`0` is Python-falsy and treated as no reference.) -/
theorem referral_credit_once (db : UserDb) (uid up : Nat) (username : Option Str)
    (fn newMid : Str) (affAmt : Option ℚ) (hup : 0 < up) (hne : up ≠ uid) :
    (dbLookup uid db = none → ∀ uu, dbLookup up db = some uu →
      (upsertUser db uid username fn (some up) newMid affAmt).isNew = true ∧
      dbLookup up (upsertUser db uid username fn (some up) newMid affAmt).db =
        some { uu with
                 balance := uu.balance + affAmt.getD AFFILIATE_AMOUNT
                 sharedCount := uu.sharedCount + 1 } ∧
      dbLookup uid (upsertUser db uid username fn (some up) newMid affAmt).db =
        some ⟨username, fn, some newMid, none, 0, 0, some up, true, false, false⟩) ∧
    (∀ u0, dbLookup uid db = some u0 →
      (upsertUser db uid username fn (some up) newMid affAmt).isNew = false ∧
      ∀ k, (dbLookup k (upsertUser db uid username fn (some up) newMid affAmt).db).map
            (fun u => (u.balance, u.sharedCount, u.creditedUpline)) =
          (dbLookup k db).map (fun u => (u.balance, u.sharedCount, u.creditedUpline))) := by
  have hups : (if (some up : Option Nat) = some uid then none else some up) = some up := by
    simp [hne]
  have h0 : up ≠ 0 := by omega
  constructor
  · intro hnew uu hex
    have hne2 : ¬ uid = up := fun h => hne h.symm
    have hhit : dbLookup up
        ((uid, (⟨username, fn, some newMid, none, 0, 0, some up, false, false, false⟩ : User))
          :: db) = some uu := by
      simp [dbLookup, hne2, hex]
    simp only [upsertUser, hups, hnew, Option.isNone_none, if_true]
    refine ⟨trivial, ?_, ?_⟩
    · simp only [ne_eq, h0, not_false_eq_true, and_true, if_true, hhit, Option.isSome_some]
      rw [dbLookup_dbUpdate_other uid up hne _ _, dbLookup_dbUpdate_self, hhit]
      rfl
    · simp only [ne_eq, h0, not_false_eq_true, and_true, if_true, hhit, Option.isSome_some]
      rw [dbLookup_dbUpdate_self, dbLookup_dbUpdate_other up uid (fun h => hne h.symm) _ _,
        show dbLookup uid
          ((uid, (⟨username, fn, some newMid, none, 0, 0, some up, false, false, false⟩ : User))
            :: db) = some ⟨username, fn, some newMid, none, 0, 0, some up, false, false, false⟩
          by simp [dbLookup]]
      rfl
  · intro u0 hex
    have hold : (dbLookup uid db).isNone = false := by rw [hex]; rfl
    simp only [upsertUser, hups, hold, Bool.false_eq_true, if_false, ne_eq, false_and,
      and_false]
    refine ⟨trivial, ?_⟩
    intro k
    by_cases hk : k = uid
    · subst hk
      rw [dbLookup_dbUpdate_self, hex]
      rfl
    · rw [dbLookup_dbUpdate_other uid k hk _ _]

/-- Witness for C3: user 9 arrives for the first time with upline 5
whose row holds balance 10 and share count 2; after the upsert the
upline holds balance 11 and share count 3 and user 9 is marked
credited; the claim is instantiated through `referral_credit_once`. -/
theorem referral_credit_once_witness :
    (upsertUser [(5, ⟨none, [], none, none, 10, 2, none, false, false, false⟩)]
        9 none [] (some 5) [] none).isNew = true ∧
    dbLookup 5 (upsertUser [(5, ⟨none, [], none, none, 10, 2, none, false, false, false⟩)]
        9 none [] (some 5) [] none).db =
      some ⟨none, [], none, none, 11, 3, none, false, false, false⟩ ∧
    dbLookup 9 (upsertUser [(5, ⟨none, [], none, none, 10, 2, none, false, false, false⟩)]
        9 none [] (some 5) [] none).db =
      some ⟨none, [], some [], none, 0, 0, some 5, true, false, false⟩ := by
  have h := (referral_credit_once [(5, ⟨none, [], none, none, 10, 2, none, false, false, false⟩)]
      9 5 none [] [] none (by norm_num) (by norm_num)).1 rfl
      ⟨none, [], none, none, 10, 2, none, false, false, false⟩ rfl
  refine ⟨h.1, ?_, h.2.2⟩
  rw [h.2.1]
  norm_num [AFFILIATE_AMOUNT, Option.getD]

/-- C10: when the user row already exists, `upsert_user` only refreshes
`username` and `first_name`, backfills `member_id` when it was null or
empty, and leaves `balance`, `shared_count`, `upline_user_id`,
`credited_upline`, `phone`, `is_verified` and `is_premium` unchanged;
rows of other users are untouched. -/
theorem upsert_existing_frame (db : UserDb) (uid : Nat) (username : Option Str)
    (fn newMid : Str) (uplineId : Option Nat) (affAmt : Option ℚ) (u0 : User)
    (hex : dbLookup uid db = some u0) :
    (upsertUser db uid username fn uplineId newMid affAmt).isNew = false ∧
    dbLookup uid (upsertUser db uid username fn uplineId newMid affAmt).db =
      some { u0 with
               username := username
               firstName := fn
               memberId := if u0.memberId = none ∨ u0.memberId = some [] then some newMid
                           else u0.memberId } ∧
    ∀ k, k ≠ uid → dbLookup k (upsertUser db uid username fn uplineId newMid affAmt).db =
      dbLookup k db := by
  have hold : (dbLookup uid db).isNone = false := by rw [hex]; rfl
  have hdb2 : (upsertUser db uid username fn uplineId newMid affAmt).db =
      dbUpdate uid (fun u =>
        { u with
            username := username
            firstName := fn
            memberId := if u.memberId = none ∨ u.memberId = some [] then some newMid
                        else u.memberId }) db := by
    simp only [upsertUser, hold, Bool.false_eq_true, if_false]
    cases h : (if uplineId = some uid then none else uplineId) <;> simp
  refine ⟨?_, ?_, ?_⟩
  · simp only [upsertUser, hold]
  · rw [hdb2, dbLookup_dbUpdate_self, hex]
    rfl
  · intro k hk
    rw [hdb2, dbLookup_dbUpdate_other uid k hk _ _]

/-- Witness for C10: an inbound event for existing user 9 (balance 42,
share count 3, phone set, verified, premium, credited, upline 5, empty
member id) refreshes only the profile fields and backfills the member
id; user 5's row is untouched. -/
theorem upsert_existing_frame_witness :
    (upsertUser [(9, ⟨none, [], some [], some ['1'], 42, 3, some 5, true, true, true⟩),
        (5, ⟨none, [], none, none, 10, 2, none, false, false, false⟩)]
        9 (some ['n']) ['F'] none ['m'] none).isNew = false ∧
    dbLookup 9 (upsertUser [(9, ⟨none, [], some [], some ['1'], 42, 3, some 5, true, true, true⟩),
        (5, ⟨none, [], none, none, 10, 2, none, false, false, false⟩)]
        9 (some ['n']) ['F'] none ['m'] none).db =
      some ⟨some ['n'], ['F'], some ['m'], some ['1'], 42, 3, some 5, true, true, true⟩ ∧
    dbLookup 5 (upsertUser [(9, ⟨none, [], some [], some ['1'], 42, 3, some 5, true, true, true⟩),
        (5, ⟨none, [], none, none, 10, 2, none, false, false, false⟩)]
        9 (some ['n']) ['F'] none ['m'] none).db =
      some ⟨none, [], none, none, 10, 2, none, false, false, false⟩ := by
  have h := upsert_existing_frame
      [(9, ⟨none, [], some [], some ['1'], 42, 3, some 5, true, true, true⟩),
        (5, ⟨none, [], none, none, 10, 2, none, false, false, false⟩)]
      9 (some ['n']) ['F'] ['m'] none none
      ⟨none, [], some [], some ['1'], 42, 3, some 5, true, true, true⟩ rfl
  refine ⟨h.1, ?_, ?_⟩
  · rw [h.2.1]
    decide
  · rw [h.2.2 5 (by norm_num)]
    rfl

/-- C5: the effective limit resolves with the per-user override taking
priority over the tenant default; a missing or non-positive limit is
unlimited (always admitted, zero reported usage, state untouched);
otherwise the counter is incremented if and only if the current count
is below the limit, the admitted count is reported back, a blocked
attempt leaves the counter unchanged, and a stored count that was at
most the limit stays at most the limit. -/
theorem scan_daily_quota (override botLimit : Option Int) (st : ScanCount) :
    (∀ v : Int, getScanLimitForUser (some v) botLimit = some v) ∧
    getScanLimitForUser none botLimit = botLimit ∧
    (getScanLimitForUser override botLimit = none →
      scanDailyTouchOrBlock override botLimit st = ⟨true, 0, none, st⟩) ∧
    (∀ lim, getScanLimitForUser override botLimit = some lim → lim ≤ 0 →
      scanDailyTouchOrBlock override botLimit st = ⟨true, 0, some lim, st⟩) ∧
    (∀ lim, getScanLimitForUser override botLimit = some lim → 0 < lim →
      ((scanDailyTouchOrBlock override botLimit st).allowed = true ↔
        ((st.getD 0 : Nat) : Int) < lim) ∧
      ((scanDailyTouchOrBlock override botLimit st).allowed = true →
        (scanDailyTouchOrBlock override botLimit st).count = some (st.getD 0 + 1) ∧
        (scanDailyTouchOrBlock override botLimit st).usedAfter = st.getD 0 + 1) ∧
      ((scanDailyTouchOrBlock override botLimit st).allowed = false →
        (scanDailyTouchOrBlock override botLimit st).count = st) ∧
      (((st.getD 0 : Nat) : Int) ≤ lim →
        (((scanDailyTouchOrBlock override botLimit st).count.getD 0 : Nat) : Int) ≤ lim)) := by
  refine ⟨fun v => rfl, rfl, ?_, ?_, ?_⟩
  · intro hnone
    simp [scanDailyTouchOrBlock, hnone]
  · intro lim hlim hle
    simp [scanDailyTouchOrBlock, hlim, hle]
  · intro lim hlim hpos
    have hnle : ¬ lim ≤ 0 := by omega
    cases st with
    | none =>
        have hres : scanDailyTouchOrBlock override botLimit none =
            ⟨true, 1, some lim, some 1⟩ := by
          simp [scanDailyTouchOrBlock, hlim, hnle]
        rw [hres]
        refine ⟨by simpa using hpos, fun _ => ⟨rfl, rfl⟩, fun h => by simp at h, fun _ => ?_⟩
        show ((1 : Nat) : Int) ≤ lim
        omega
    | some c =>
        by_cases hc : (c : Int) < lim
        · have hres : scanDailyTouchOrBlock override botLimit (some c) =
              ⟨true, c + 1, some lim, some (c + 1)⟩ := by
            simp [scanDailyTouchOrBlock, hlim, hnle, hc]
          rw [hres]
          refine ⟨by simpa using hc, fun _ => ⟨rfl, rfl⟩, fun h => by simp at h, fun _ => ?_⟩
          show (((c + 1 : Nat)) : Int) ≤ lim
          push_cast
          omega
        · have hres : scanDailyTouchOrBlock override botLimit (some c) =
              ⟨false, if c = 0 then lim.toNat else c, some lim, some c⟩ := by
            simp [scanDailyTouchOrBlock, hlim, hnle, hc]
          rw [hres]
          refine ⟨by simpa using hc, fun h => by simp at h, fun _ => rfl, fun hle => ?_⟩
          exact hle

/-- Witness for C5: with a tenant default of 10 and a per-user override
of 2, a user whose stored count is 2 is blocked and the counter stays
at 2 ≤ 2, instantiated through `scan_daily_quota`. -/
theorem scan_daily_quota_witness :
    ((scanDailyTouchOrBlock (some 2) (some 10) (some 2)).allowed = true ↔
      ((2 : Nat) : Int) < 2) ∧
    (scanDailyTouchOrBlock (some 2) (some 10) (some 2)).count = some 2 ∧
    (((scanDailyTouchOrBlock (some 2) (some 10) (some 2)).count.getD 0 : Nat) : Int) ≤ 2 := by
  have h := (scan_daily_quota (some 2) (some 10) (some 2)).2.2.2.2 2 rfl (by norm_num)
  exact ⟨by simpa using h.1, h.2.2.1 (by decide), h.2.2.2 (by decide)⟩

/-- Counterexample for C6: with the default 5-second window and a last
use recorded 4.9995 seconds ago — strictly inside the window — the
check returns 0, not a positive remaining-seconds value (while indeed
not mutating the stored timestamp), so a second attempt in the final
millisecond of the window is admitted by the caller rather than
denied. -/
theorem cooldown_check_counterexample :
    (9999 / 2000 : ℚ) - 0 < 5 ∧
    scannerCheckAndTouchCooldown (some 0) (9999 / 2000) 5 = (0, some 0) := by
  constructor
  · norm_num
  · have hlt : (9999 / 2000 : ℚ) - 0 < 5 := by norm_num
    have heq : scannerCheckAndTouchCooldown (some 0) (9999 / 2000) 5 =
        (⌊(5 : ℚ) - (9999 / 2000 - 0) + 999 / 1000⌋, some 0) := by
      simp only [scannerCheckAndTouchCooldown, hlt, if_true]
    rw [heq]
    rw [show (5 : ℚ) - (9999 / 2000 - 0) + 999 / 1000 = 1999 / 2000 by norm_num]
    rw [show ⌊(1999 / 2000 : ℚ)⌋ = 0 by
      rw [Int.floor_eq_zero_iff, Set.mem_Ico]
      constructor <;> norm_num]

/-- C6 (amended): if the elapsed time since the last recorded use is
below the cooldown window, the stored timestamp is not mutated and the
returned remaining value is `⌊window - elapsed + 0.999⌋`, which is
positive whenever at least one millisecond of the window remains (but
zero in the final sub-millisecond of the window); once the window has
elapsed — or when no use was ever recorded — the current time is
stored as the new last-used timestamp and zero is returned, so a later
attempt is admitted. -/
theorem cooldown_check_amended (lastAt : Option ℚ) (now cd : ℚ) :
    (∀ last, lastAt = some last → now - last < cd →
      scannerCheckAndTouchCooldown lastAt now cd =
        (⌊cd - (now - last) + 999 / 1000⌋, some last) ∧
      (now - last ≤ cd - 1 / 1000 → 0 < (scannerCheckAndTouchCooldown lastAt now cd).1)) ∧
    (∀ last, lastAt = some last → cd ≤ now - last →
      scannerCheckAndTouchCooldown lastAt now cd = (0, some now)) ∧
    (lastAt = none → scannerCheckAndTouchCooldown lastAt now cd = (0, some now)) := by
  refine ⟨?_, ?_, ?_⟩
  · intro last hl hlt
    subst hl
    have heq : scannerCheckAndTouchCooldown (some last) now cd =
        (⌊cd - (now - last) + 999 / 1000⌋, some last) := by
      simp [scannerCheckAndTouchCooldown, hlt]
    refine ⟨heq, ?_⟩
    intro hms
    rw [heq]
    have h1 : (1 : ℚ) ≤ cd - (now - last) + 999 / 1000 := by linarith
    have h2 : (1 : ℤ) ≤ ⌊cd - (now - last) + 999 / 1000⌋ :=
      Int.le_floor.mpr (by exact_mod_cast h1)
    show 0 < ⌊cd - (now - last) + 999 / 1000⌋
    omega
  · intro last hl hge
    subst hl
    simp [scannerCheckAndTouchCooldown, not_lt.mpr hge]
  · intro hl
    subst hl
    rfl

/-- Witness for C6 (amended): a second attempt 2 seconds after the
first (window 5 s) is denied with remaining value ⌊3.999⌋ = 3 > 0 and
the timestamp kept; an attempt 6 seconds after is admitted and rearms
the timestamp. -/
theorem cooldown_check_amended_witness :
    scannerCheckAndTouchCooldown (some 0) 2 5 = (⌊(5 : ℚ) - (2 - 0) + 999 / 1000⌋, some 0) ∧
    0 < (scannerCheckAndTouchCooldown (some 0) 2 5).1 ∧
    scannerCheckAndTouchCooldown (some 0) 6 5 = (0, some 6) := by
  have h := cooldown_check_amended (some 0) 2 5
  have h1 := h.1 0 rfl (by norm_num)
  have h2 := (cooldown_check_amended (some 0) 6 5).2.1 0 rfl (by norm_num)
  exact ⟨h1.1, h1.2 (by norm_num), h2⟩

/-- C4: a withdrawal submission from a user whose balance is below the
tenant minimum, or whose parsed request amount exceeds the balance, is
answered with the insufficient-balance message, creates no withdrawal
row and leaves the balance unchanged. -/
theorem withdraw_insufficient_no_row (uid : Nat) (minWd : ℚ) (textMsg : Str)
    (st : WithdrawState)
    (h : st.balance < minWd ∨ ∃ a, firstNumber textMsg = some a ∧ st.balance < a) :
    process_withdraw uid minWd textMsg st = ⟨st, .insufficient minWd st.balance⟩ := by
  rcases h with h | ⟨a, ha, hlt⟩
  · simp [process_withdraw, h]
  · by_cases hmin : st.balance < minWd
    · simp [process_withdraw, hmin]
    · simp [process_withdraw, hmin, ha, hlt]

/-- Witness for C4: the spec scenario — balance 40.00, minimum 30.00,
request text `RM50 Maybank 12345678` parsing to amount 50 — is
rejected at creation time with the insufficient message, no request
row and the balance intact. -/
theorem withdraw_insufficient_no_row_witness :
    process_withdraw 9 30 ("RM50 Maybank 12345678".data) ⟨40, []⟩ =
      ⟨⟨40, []⟩, .insufficient 30 40⟩ :=
  withdraw_insufficient_no_row 9 30 ("RM50 Maybank 12345678".data) ⟨40, []⟩
    (Or.inr ⟨50, by decide, by norm_num⟩)

/-- Counterexample for C8: (a) a `/start` text arriving while
`await_withdraw` is active is routed to the start handler — generic
command handling — with the state left pending, not to the state's
handler; (b) a malformed token text arriving while
`await_addbot_token` is active is dispatched to the state's handler
but the state is not cleared on this failure path. -/
theorem router_state_dispatch_counterexample :
    routeTextMessage (some .awaitWithdraw) true false false false ⟨"/start".data, false⟩ =
      ⟨.startHandler, some .awaitWithdraw⟩ ∧
    routeTextMessage (some .awaitAddbotToken) true false false false ⟨"abc".data, false⟩ =
      ⟨.stateAddbot, some .awaitAddbotToken⟩ := by
  decide

/-- C8 (amended): a non-empty text message that is not a `/start`
command and carries no contact share — those two are handled before
the state check, with the state left pending — is dispatched
exclusively to the active state's handler and never to generic command
parsing; the `await_withdraw` handler clears the state unconditionally
on entry, and the `await_addbot_token` dispatch clears it for
non-admin senders, on a duplicate token, and on successful creation,
but leaves it set when the token format is invalid or
validation/insertion fails. -/
theorem router_state_dispatch (state : SessionState) (isAdmin duplicate valid insertOk : Bool)
    (ev : MsgEvent) (hs : ("/start".data).isPrefixOf ev.text = false)
    (hc : ev.hasContact = false) (ht : ev.text ≠ []) :
    (routeTextMessage (some state) isAdmin duplicate valid insertOk ev).dispatched ≠
      .commandDispatch ∧
    (state = .awaitWithdraw →
      routeTextMessage (some state) isAdmin duplicate valid insertOk ev =
        ⟨.stateWithdraw, none⟩) ∧
    (state = .awaitAddbotToken → isAdmin = false →
      routeTextMessage (some state) isAdmin duplicate valid insertOk ev =
        ⟨.deniedAdminCleared, none⟩) ∧
    (state = .awaitAddbotToken → isAdmin = true →
      routeTextMessage (some state) isAdmin duplicate valid insertOk ev =
        ⟨.stateAddbot,
          if addbotClearsState ev.text duplicate valid insertOk then none
          else some .awaitAddbotToken⟩) := by
  cases state with
  | awaitWithdraw =>
      have h : routeTextMessage (some .awaitWithdraw) isAdmin duplicate valid insertOk ev =
          ⟨.stateWithdraw, none⟩ := by
        simp [routeTextMessage, hs, hc, ht]
      refine ⟨?_, fun _ => h, fun hx => by simp at hx, fun hx => by simp at hx⟩
      rw [h]
      simp
  | awaitAddbotToken =>
      cases isAdmin with
      | false =>
          have h : routeTextMessage (some .awaitAddbotToken) false duplicate valid insertOk
              ev = ⟨.deniedAdminCleared, none⟩ := by
            simp [routeTextMessage, hs, hc, ht]
          refine ⟨?_, fun hx => by simp at hx, fun _ _ => h, fun _ hx => by simp at hx⟩
          rw [h]
          simp
      | true =>
          have h : routeTextMessage (some .awaitAddbotToken) true duplicate valid insertOk
              ev = ⟨.stateAddbot,
                if addbotClearsState ev.text duplicate valid insertOk then none
                else some .awaitAddbotToken⟩ := by
            simp [routeTextMessage, hs, hc, ht]
          refine ⟨?_, fun hx => by simp at hx, fun _ hx => by simp at hx, fun _ _ => h⟩
          rw [h]
          by_cases hcl : addbotClearsState ev.text duplicate valid insertOk <;> simp [hcl]

/-- Witness for C8 (amended): free text `RM50 Maybank 12345678` while
`await_withdraw` is active is dispatched to the withdraw handler with
the state cleared, instantiated through `router_state_dispatch`. -/
theorem router_state_dispatch_witness :
    routeTextMessage (some .awaitWithdraw) true false false false
      ⟨"RM50 Maybank 12345678".data, false⟩ = ⟨.stateWithdraw, none⟩ :=
  (router_state_dispatch .awaitWithdraw true false false false
    ⟨"RM50 Maybank 12345678".data, false⟩ (by decide) rfl (by decide)).2.1 rfl

theorem matchLitCI_length (p : Str) : ∀ (s r : Str), matchLitCI p s = some r →
    r.length + p.length = s.length := by
  induction p with
  | nil =>
      intro s r h
      simp only [matchLitCI, Option.some_inj] at h
      subst h
      simp
  | cons hd tl ih =>
      intro s r h
      cases s with
      | nil => simp [matchLitCI] at h
      | cons c cs =>
          simp only [matchLitCI] at h
          by_cases hc : c.toLower = hd
          · rw [if_pos hc] at h
            have := ih cs r h
            simp [List.length_cons]
            omega
          · rw [if_neg hc] at h
            cases h

theorem length_dropWhile_le (p : Char → Bool) (l : Str) :
    (l.dropWhile p).length ≤ l.length := by
  induction l with
  | nil => simp [List.dropWhile]
  | cons c cs ih =>
      by_cases h : p c
      · simp only [List.dropWhile, h, if_true]
        simp
        omega
      · simp [List.dropWhile, h]

theorem matchDelayCore_length (s : Str) (v : Nat) (rem : Str)
    (h : matchDelayCore s = some (v, rem)) : rem.length + 6 ≤ s.length := by
  unfold matchDelayCore at h
  cases hm : matchLitCI ("delay".data) s with
  | none => rw [hm] at h; cases h
  | some r1 =>
      simp only [hm] at h
      have hr1 := matchLitCI_length ("delay".data) s r1 hm
      cases hd : r1.dropWhile isPySpace with
      | nil =>
          simp only [hd] at h
          exact Option.noConfusion h
      | cons c r3x =>
          simp only [hd] at h
          by_cases hc : c = '='
          · rw [if_pos hc] at h
            have hlen3 : r3x.length < r1.length := by
              have hw := length_dropWhile_le isPySpace r1
              rw [hd] at hw
              simp at hw
              omega
            by_cases hds : (r3x.dropWhile isPySpace).takeWhile Char.isDigit = []
            · rw [if_pos hds] at h; exact Option.noConfusion h
            · rw [if_neg hds] at h
              by_cases hb : (match (r3x.dropWhile isPySpace).dropWhile Char.isDigit with
                  | [] => true
                  | c2 :: _ => ! isWordChar c2) = true
              · rw [if_pos hb] at h
                have hrem : rem = (r3x.dropWhile isPySpace).dropWhile Char.isDigit := by
                  cases h; rfl
                have h4 : ((r3x.dropWhile isPySpace).dropWhile Char.isDigit).length <
                    r3x.length + 1 := by
                  have h5 := length_dropWhile_le isPySpace r3x
                  have h6 := length_dropWhile_le Char.isDigit (r3x.dropWhile isPySpace)
                  omega
                rw [hrem]
                simp [List.length_cons] at hr1 ⊢
                omega
              · rw [if_neg hb] at h; exact Option.noConfusion h
          · rw [if_neg hc] at h
            exact Option.noConfusion h

/-- Every scan step of `removeDelayFuel` consumes at least one
character, so any fuel of at least the string's length gives the same
(fuel-free) result; the initial fuel `s.length` is therefore enough
and `removeDelay` implements the unbounded left-to-right scan. -/
theorem removeDelayFuel_fuel_irrel : ∀ (f1 : Nat) (b : Bool) (s : Str) (f2 : Nat),
    s.length ≤ f1 → s.length ≤ f2 → removeDelayFuel f1 b s = removeDelayFuel f2 b s := by
  intro f1
  induction f1 with
  | zero =>
      intro b s f2 h1 _
      have hs : s = [] := List.length_eq_zero.mp (Nat.le_zero.mp h1)
      subst hs
      cases f2 <;> rfl
  | succ f ih =>
      intro b s f2 h1 h2
      cases s with
      | nil => cases f2 <;> rfl
      | cons c cs =>
          cases f2 with
          | zero => simp at h2
          | succ g =>
              simp only [removeDelayFuel]
              by_cases hb : ((c :: cs).takeWhile isPySpace ≠ []) ∨ b = false
              · rw [if_pos hb, if_pos hb]
                cases hm : matchDelayCore ((c :: cs).dropWhile isPySpace) with
                | none =>
                    dsimp only
                    simp only [List.length_cons] at h1 h2
                    rw [ih (isWordChar c) cs g (by omega) (by omega)]
                | some vr =>
                    dsimp only
                    have hl := matchDelayCore_length _ _ _ hm
                    have hd := length_dropWhile_le isPySpace (c :: cs)
                    simp only [List.length_cons] at h1 h2 hd
                    rw [ih true vr.2 g (by omega) (by omega)]
              · rw [if_neg hb, if_neg hb]
                simp only [List.length_cons] at h1 h2
                rw [ih (isWordChar c) cs g (by omega) (by omega)]

/-- Every scan step consumes at least one character, so any fuel of at
least the string's length yields the same result: the initial fuel
`s.length` is enough and `escapeUnknownTags` implements the unbounded
scan. -/
theorem escapeTagsFuel_fuel_irrel : ∀ (f1 : Nat) (s : Str) (f2 : Nat),
    s.length ≤ f1 → s.length ≤ f2 → escapeTagsFuel f1 s = escapeTagsFuel f2 s := by
  intro f1
  induction f1 with
  | zero =>
      intro s f2 h1 _
      have hs : s = [] := List.length_eq_zero.mp (Nat.le_zero.mp h1)
      subst hs
      cases f2 <;> rfl
  | succ f ih =>
      intro s f2 h1 h2
      cases s with
      | nil => cases f2 <;> rfl
      | cons c rest =>
          cases f2 with
          | zero => simp at h2
          | succ g =>
              simp only [escapeTagsFuel]
              by_cases hc : c = '<'
              · rw [if_pos hc, if_pos hc]
                by_cases htag : (rest.takeWhile (fun c2 => c2 != '>')).length < rest.length ∧
                    rest.takeWhile (fun c2 => c2 != '>') ≠ []
                · rw [if_pos htag, if_pos htag]
                  simp only [List.length_cons] at h1 h2
                  have hdl : (rest.drop ((rest.takeWhile (fun c2 => c2 != '>')).length + 1)).length
                      ≤ rest.length := by
                    rw [List.length_drop]
                    omega
                  rw [ih _ g (by omega) (by omega)]
                · rw [if_neg htag, if_neg htag]
                  simp only [List.length_cons] at h1 h2
                  rw [ih rest g (by omega) (by omega)]
              · rw [if_neg hc, if_neg hc]
                simp only [List.length_cons] at h1 h2
                rw [ih rest g (by omega) (by omega)]

/-- The recurrence actually implemented by the Python scan, stated
fuel-free: `escapeUnknownTags` satisfies exactly the leftmost-match
behaviour of `re.sub(r"</?[^>]+>", repl, ...)`. -/
theorem escapeUnknownTags_cons (c : Char) (rest : Str) :
    escapeUnknownTags (c :: rest) =
      if c = '<' then
        if (rest.takeWhile (fun c2 => c2 != '>')).length < rest.length ∧
            rest.takeWhile (fun c2 => c2 != '>') ≠ [] then
          replTag ('<' :: rest.takeWhile (fun c2 => c2 != '>') ++ ['>']) ++
            escapeUnknownTags (rest.drop ((rest.takeWhile (fun c2 => c2 != '>')).length + 1))
        else c :: escapeUnknownTags rest
      else c :: escapeUnknownTags rest := by
  show escapeTagsFuel (rest.length + 1) (c :: rest) = _
  simp only [escapeTagsFuel]
  by_cases hc : c = '<'
  · rw [if_pos hc, if_pos hc]
    by_cases htag : (rest.takeWhile (fun c2 => c2 != '>')).length < rest.length ∧
        rest.takeWhile (fun c2 => c2 != '>') ≠ []
    · rw [if_pos htag, if_pos htag]
      have hdl : (rest.drop ((rest.takeWhile (fun c2 => c2 != '>')).length + 1)).length
          ≤ rest.length := by
        rw [List.length_drop]
        omega
      rw [escapeTagsFuel_fuel_irrel rest.length _ _ hdl (le_refl _)]
      rfl
    · rw [if_neg htag, if_neg htag]
      rfl
  · rw [if_neg hc, if_neg hc]
    rfl

theorem mem_insertSortedNat (x y : Nat) (l : List Nat) :
    y ∈ insertSortedNat x l ↔ y = x ∨ y ∈ l := by
  induction l with
  | nil => simp [insertSortedNat]
  | cons z zs ih =>
      by_cases h : x ≤ z
      · simp [insertSortedNat, h]
      · simp [insertSortedNat, h, ih]
        tauto

theorem sorted_insertSortedNat (x : Nat) (l : List Nat) (h : l.Sorted (· ≤ ·)) :
    (insertSortedNat x l).Sorted (· ≤ ·) := by
  induction l with
  | nil => simp [insertSortedNat]
  | cons y ys ih =>
      rw [List.sorted_cons] at h
      by_cases hxy : x ≤ y
      · simp only [insertSortedNat, hxy, if_true]
        rw [List.sorted_cons]
        refine ⟨?_, ?_⟩
        · intro b hb
          rcases List.mem_cons.mp hb with rfl | hbm
          · exact hxy
          · exact le_trans hxy (h.1 b hbm)
        · rw [List.sorted_cons]
          exact h
      · simp only [insertSortedNat, hxy, if_false]
        rw [List.sorted_cons]
        refine ⟨?_, ih h.2⟩
        intro b hb
        rcases (mem_insertSortedNat x b ys).mp hb with rfl | hbm
        · omega
        · exact h.1 b hbm

/-- Python `sorted(...)` returns an ascending list. -/
theorem sorted_sortNat (l : List Nat) : (sortNat l).Sorted (· ≤ ·) := by
  induction l with
  | nil => simp [sortNat]
  | cons x xs ih => exact sorted_insertSortedNat x (sortNat xs) ih

theorem htmlEscapeChar_no_angle (a : Char) : ∀ c ∈ htmlEscapeChar a, c ≠ '<' ∧ c ≠ '>' := by
  intro c hc
  unfold htmlEscapeChar at hc
  split_ifs at hc with h1 h2 h3 h4 h5
  · simp at hc
    rcases hc with rfl | rfl | rfl | rfl | rfl <;> exact ⟨by decide, by decide⟩
  · simp at hc
    rcases hc with rfl | rfl | rfl | rfl <;> exact ⟨by decide, by decide⟩
  · simp at hc
    rcases hc with rfl | rfl | rfl | rfl <;> exact ⟨by decide, by decide⟩
  · simp at hc
    rcases hc with rfl | rfl | rfl | rfl | rfl | rfl <;> exact ⟨by decide, by decide⟩
  · simp at hc
    rcases hc with rfl | rfl | rfl | rfl | rfl | rfl <;> exact ⟨by decide, by decide⟩
  · simp at hc
    subst hc
    exact ⟨h2, h3⟩

/-- The HTML escape of any string contains no raw angle bracket, so an
escaped tag can never reach the platform as live markup. -/
theorem htmlEscape_no_angle (s : Str) : ∀ c ∈ htmlEscape s, c ≠ '<' ∧ c ≠ '>' := by
  intro c hc
  simp only [htmlEscape, List.mem_flatten, List.mem_map] at hc
  obtain ⟨l, ⟨a, _, rfl⟩, hcl⟩ := hc
  exact htmlEscapeChar_no_angle a c hcl

/-- C7: a template line `!1link Go|example.com` compiles to a
single-row keyboard whose button URL is `https://example.com` with the
DSL line stripped from the visible text; row keys are always emitted
in ascending numeric order (shown generally for the sort feeding the
keyboard and concretely for out-of-order rows); an unsupported tag
such as `<script>` is HTML-escaped end to end, an allowlisted tag
passes through unchanged, and per tag the sanitizer's replacement
keeps exactly the allowlisted names and escapes every other tag into
markup-free text. -/
theorem markup_compiler_correct :
    parse_buttons ("Hello\n!1link Go|example.com".data) none =
      ⟨"Hello".data, some [[.url ("Go".data) ("https://example.com".data)]]⟩ ∧
    parse_buttons ("!2link B|b.com\n!1link A|a.com".data) none =
      ⟨[], some [[.url ("A".data) ("https://a.com".data)],
                 [.url ("B".data) ("https://b.com".data)]]⟩ ∧
    (∀ (text : Str) (q : Str),
      (sortNat (((collectButtons q (splitLines text)).2).map Prod.fst)).Sorted (· ≤ ·)) ∧
    sanitize_telegram_html ("hi <script>x</script>".data) =
      ("hi &lt;script&gt;x&lt;/script&gt;".data) ∧
    sanitize_telegram_html ("<b>hi</b> <tg-spoiler>s</tg-spoiler>".data) =
      ("<b>hi</b> <tg-spoiler>s</tg-spoiler>".data) ∧
    (∀ inner : Str, inner ≠ [] → ('>' ∉ inner) →
      (∀ n, extractTagName ('<' :: inner ++ ['>']) = some n → n ∈ ALLOWED_TAGS →
        replTag ('<' :: inner ++ ['>']) = '<' :: inner ++ ['>']) ∧
      ((∀ n, extractTagName ('<' :: inner ++ ['>']) = some n → n ∉ ALLOWED_TAGS) →
        ∀ c ∈ replTag ('<' :: inner ++ ['>']), c ≠ '<' ∧ c ≠ '>')) := by
  refine ⟨by decide, by decide, ?_, by decide, by decide, ?_⟩
  · intro text q
    exact sorted_sortNat _
  · intro inner _ _
    constructor
    · intro n hn hmem
      unfold replTag
      rw [hn]
      dsimp only
      rw [if_pos hmem]
    · intro hnall c hc
      unfold replTag at hc
      cases he : extractTagName ('<' :: inner ++ ['>']) with
      | none =>
          rw [he] at hc
          dsimp only at hc
          exact htmlEscape_no_angle _ c hc
      | some n =>
          rw [he] at hc
          dsimp only at hc
          rw [if_neg (hnall n he)] at hc
          exact htmlEscape_no_angle _ c hc

/-- Witness for C7: the allowlisted tag `<b>` passes the replacement
callback unchanged, instantiated through `markup_compiler_correct`. -/
theorem markup_compiler_correct_witness :
    replTag ('<' :: "b".data ++ ['>']) = '<' :: "b".data ++ ['>'] :=
  (markup_compiler_correct.2.2.2.2.2 ("b".data) (by decide) (by decide)).1
    ("b".data) (by decide) (by decide)

/-- C9: with a known message reference, a delay ≤ 0 renders and edits
the existing message synchronously; a delay > 0 first edits the
message to the loading representation and enqueues a task carrying
(tenant, chat, user, message reference, action key) to fire after the
delay; the deferred handler re-resolves the Action by key at fire time
— so a redefinition changes what is rendered — re-checks the access
gates, re-renders, and edits the same message to the final result. -/
theorem delayed_action_scheduler (botId : Nat) (chatId : Int) (uid mid : Nat) (key : Str)
    (act : ActionRow) (delayOverride : Option Int) (render : ActionRow → Str) :
    (delayOverride.getD act.delaySeconds ≤ 0 → ∀ useTasks,
      handleCbAction botId chatId uid (some mid) key act delayOverride render useTasks =
        [.editFinal mid (render act)]) ∧
    (0 < delayOverride.getD act.delaySeconds →
      handleCbAction botId chatId uid (some mid) key act delayOverride render true =
        [.editLoading mid,
          .enqueueTask ⟨botId, chatId, uid, some mid, key⟩
            (delayOverride.getD act.delaySeconds)]) ∧
    (∀ (store2 : ActionStore) (act2 : ActionRow) (render2 : ActionRow → Str),
      actionsGet key store2 = some act2 →
        task_action store2 true render2 ⟨botId, chatId, uid, some mid, key⟩ =
          .edited mid (render2 act2)) ∧
    (∀ (store2 : ActionStore) (render2 : ActionRow → Str),
      actionsGet key store2 = none →
        task_action store2 true render2 ⟨botId, chatId, uid, some mid, key⟩ = .noAction) ∧
    (∀ (store2 : ActionStore) (act2 : ActionRow) (render2 : ActionRow → Str),
      actionsGet key store2 = some act2 →
        task_action store2 false render2 ⟨botId, chatId, uid, some mid, key⟩ =
          .accessDenied) := by
  refine ⟨?_, ?_, ?_, ?_, ?_⟩
  · intro hd useTasks
    simp [handleCbAction, hd]
  · intro hd
    have hnle : ¬ delayOverride.getD act.delaySeconds ≤ 0 := by omega
    simp [handleCbAction, hnle]
  · intro store2 act2 render2 hget
    simp [task_action, hget]
  · intro store2 render2 hget
    simp [task_action, hget]
  · intro store2 act2 render2 hget
    simp [task_action, hget]

/-- Witness for C9: an action with stored delay 3 first shows loading
and enqueues the payload; at fire time a redefined action row under
the same key is what gets rendered into the same message, instantiated
through `delayed_action_scheduler`. -/
theorem delayed_action_scheduler_witness :
    handleCbAction 1 10 9 (some 77) ("play".data)
        ⟨"text".data, "old".data, none, 3⟩ none (fun a => a.text) true =
      [.editLoading 77,
        .enqueueTask ⟨1, 10, 9, some 77, "play".data⟩ 3] ∧
    task_action [(("play".data), ⟨"text".data, "new".data, none, 3⟩)] true
        (fun a => a.text) ⟨1, 10, 9, some 77, "play".data⟩ =
      .edited 77 ("new".data) := by
  constructor
  · exact (delayed_action_scheduler 1 10 9 77 ("play".data)
      ⟨"text".data, "old".data, none, 3⟩ none (fun a => a.text)).2.1 (by norm_num)
  · exact (delayed_action_scheduler 1 10 9 77 ("play".data)
      ⟨"text".data, "old".data, none, 3⟩ none (fun a => a.text)).2.2.1
      [(("play".data), ⟨"text".data, "new".data, none, 3⟩)]
      ⟨"text".data, "new".data, none, 3⟩ (fun a => a.text) (by decide)

end TgBot

